import Mathlib

/-!
Shallow embedding of the news collection/filtering pipeline
(`src/utils/dedupe.py`, `src/utils/time_window.py`, `src/filters.py`,
`src/services/gpt_judger.py`, `src/app.py`).

Python strings are modelled as Lean `String` / `List Char`; Python `float`
values as `ℚ`; Python dict items as a `NewsItem` structure.  The static
configuration tables (`ALLOWED_SOURCES`, `NEGATIVE_KEYWORDS`), defined in
`constants.py` which is not part of the sources, are passed as parameters.
External collaborators (the OpenAI chat completion call) are modelled by the
outcome of the call: either a transport failure or the response content,
pre-classified by how Python's `float` parses it.
-/

/-- Character-level model of Python's whitespace class `\s` for the ASCII
range (space, tab, newline, carriage return, vertical tab, form feed). -/
def pyIsSpace (c : Char) : Bool :=
  c == ' ' || c == '\t' || c == '\n' || c == '\r' || c == '\x0b' || c == '\x0c'

/-- ASCII case folding of one character, modelling Python `str.lower()` on the
character ranges that have case in this code base (letters outside ASCII
occurring here are Korean, which has no case). -/
def lowerChar (c : Char) : Char :=
  if 'A' ≤ c && c ≤ 'Z' then Char.ofNat (c.toNat + 32) else c

/-- Models Python `str.lower()`. -/
def pyLower (l : List Char) : List Char := l.map lowerChar

/-- Models Python `str.strip()` (remove leading and trailing whitespace). -/
def pyStrip (l : List Char) : List Char :=
  ((l.dropWhile pyIsSpace).reverse.dropWhile pyIsSpace).reverse

/-- Does `l` start with `needle`?  Models Python `str.startswith`. -/
def startsWithSeq : List Char → List Char → Bool
  | [], _ => true
  | _ :: _, [] => false
  | a :: as, b :: bs => a == b && startsWithSeq as bs

/-- Does `l` contain `needle` as a contiguous substring?  Models Python's
`in` operator on strings. -/
def containsSeq (needle : List Char) : List Char → Bool
  | [] => needle.isEmpty
  | c :: rest => startsWithSeq needle (c :: rest) || containsSeq needle rest

/-- Split at the first occurrence of `sep`, returning the parts before and
after it, or `none` when `sep` does not occur.  Models Python
`s.split(sep, 1)` producing two pieces (`none` models the one-piece case). -/
def splitFirst (sep : List Char) : List Char → Option (List Char × List Char)
  | [] => if sep.isEmpty then some ([], []) else none
  | c :: rest =>
    if startsWithSeq sep (c :: rest) then some ([], (c :: rest).drop sep.length)
    else match splitFirst sep rest with
      | some (pre, post) => some (c :: pre, post)
      | none => none

/-- Replace each maximal run of whitespace by a single space; the flag records
whether the previous character was part of a whitespace run.  Models
`re.sub(r'\s+', ' ', s)`. -/
def collapseWsAux : Bool → List Char → List Char
  | _, [] => []
  | inRun, c :: rest =>
    if pyIsSpace c then
      if inRun then collapseWsAux true rest
      else ' ' :: collapseWsAux true rest
    else c :: collapseWsAux false rest

/-- Models `re.sub(r'\s+', ' ', s)`. -/
def collapseWs (l : List Char) : List Char := collapseWsAux false l

/-- Model of the regex class `\w` (Unicode word character) restricted to the
character repertoire of this repository's data: ASCII alphanumerics,
underscore, and Hangul (jamo, compatibility jamo, and composed syllables). -/
def pyIsWordChar (c : Char) : Bool :=
  c.isAlphanum || c == '_' ||
  (0x1100 ≤ c.toNat && c.toNat ≤ 0x11FF) ||
  (0x3130 ≤ c.toNat && c.toNat ≤ 0x318F) ||
  (0xAC00 ≤ c.toNat && c.toNat ≤ 0xD7A3)

/-- Code-point lexicographic strict order on character sequences, the order
Python uses to compare strings. -/
def charsLt : List Char → List Char → Bool
  | [], [] => false
  | [], _ :: _ => true
  | _ :: _, [] => false
  | a :: as, b :: bs => a < b || (a == b && charsLt as bs)

/-- Code-point lexicographic `≤` on character sequences. -/
def charsLe (a b : List Char) : Bool := !(charsLt b a)

/-- Structured judgment attached by `GPTNewsFilter` (the dict built by
`_parse_integrated_response`; the `raw_response` key, unused downstream,
is not carried). -/
structure Judgment where
  print_score : ℚ
  utility_score : ℚ
  total_score : ℚ
  includeFlag : Bool
  reason : String
deriving DecidableEq

/-- One news item (the dict flowing through every stage).  Absent dict keys
are the empty string (for the string fields the code reads with
`item.get(k, '')`) or `none` (for the enrichment fields). -/
structure NewsItem where
  title : String
  description : String
  link : String
  pubDate : String
  domain : String
  source_name : String
  print_score : Option ℚ
  judgment_result : Option Judgment
deriving DecidableEq

/-- The item with every field absent. -/
def emptyItem : NewsItem :=
  { title := "", description := "", link := "", pubDate := "", domain := "",
    source_name := "", print_score := none, judgment_result := none }

/-! ## `src/utils/dedupe.py` -/

/-- Loop of `remove_duplicate_links`: traverse (an already reversed) list,
keeping an item when its link is non-empty and not yet seen. -/
def rdlAux : List NewsItem → List String → List NewsItem
  | [], _ => []
  | item :: rest, seen_links =>
    if item.link ≠ "" ∧ item.link ∉ seen_links then
      item :: rdlAux rest (item.link :: seen_links)
    else rdlAux rest seen_links

/-- Models `remove_duplicate_links` (`src/utils/dedupe.py`): iterate over the
reversed list keeping the first occurrence of each non-empty link, then
reverse back to the original relative order. -/
def remove_duplicate_links (news_items : List NewsItem) : List NewsItem :=
  (rdlAux news_items.reverse []).reverse

/-- Models `sort_by_pubdate` (`src/utils/dedupe.py`): items with a non-empty
`pubDate` are stably sorted by the raw `pubDate` string (Python `sorted` with
`key=... x.get('pubDate', '')`, a stable sort; with `reverse=True` equal keys
keep their relative order, which `mergeSort` with the flipped `≤` realizes);
items with an empty `pubDate` are appended afterwards in original order. -/
def sort_by_pubdate (news_items : List NewsItem) (reverse : Bool) : List NewsItem :=
  let valid_items := news_items.filter (fun it => it.pubDate ≠ "")
  let sorted_items := valid_items.mergeSort (fun a b =>
    if reverse then charsLe b.pubDate.data a.pubDate.data
    else charsLe a.pubDate.data b.pubDate.data)
  sorted_items ++ news_items.filter (fun it => ¬ it.pubDate ≠ "")

/-- Models `clean_news_data` (`src/utils/dedupe.py`). -/
def clean_news_data (news_items : List NewsItem) : List NewsItem :=
  sort_by_pubdate (remove_duplicate_links news_items) true

/-! ## `src/utils/time_window.py`

`parse_pubdate` calls `datetime.strptime(s, "%a, %d %b %Y %H:%M:%S %z")` and
converts the result to an aware KST datetime.  Aware datetimes compare by the
instant they denote, and `astimezone` preserves that instant, so the parse is
modelled as the denoted instant: seconds relative to 1970-01-01 00:00 UTC.
The `strptime` grammar is modelled directive by directive after CPython's
`_strptime` regexes (names case-insensitive; 1-2 digit day/hour/minute/second
fields with their regex ranges; exactly four year digits; `±HHMM` or `±HH:MM`
offsets, the forms occurring in provider timestamps). -/

/-- Numeric value of a decimal digit. -/
def digitVal? (c : Char) : Option ℤ :=
  if c.isDigit then some ((c.toNat : ℤ) - 48) else none

/-- Consume `\s+` (the translation of a space in a `strptime` format). -/
def dropWs1 : List Char → Option (List Char)
  | c :: rest => if pyIsSpace c then some (rest.dropWhile pyIsSpace) else none
  | [] => none

/-- Consume one expected literal character. -/
def expectChar (e : Char) : List Char → Option (List Char)
  | c :: rest => if c == e then some rest else none
  | [] => none

/-- Consume an abbreviated weekday name (`%a`), case-insensitively;
`strptime` does not check it against the date. -/
def parseWeekday (l : List Char) : Option (List Char) :=
  match l with
  | c1 :: c2 :: c3 :: rest =>
    if pyLower [c1, c2, c3] ∈ ["mon".data, "tue".data, "wed".data, "thu".data,
        "fri".data, "sat".data, "sun".data] then some rest else none
  | _ => none

/-- The abbreviated month names recognized by `%b`, in month order. -/
def monthNames : List (List Char) :=
  ["jan".data, "feb".data, "mar".data, "apr".data, "may".data, "jun".data,
   "jul".data, "aug".data, "sep".data, "oct".data, "nov".data, "dec".data]

/-- Consume an abbreviated month name (`%b`), case-insensitively. -/
def parseMonth (l : List Char) : Option (ℤ × List Char) :=
  match l with
  | c1 :: c2 :: c3 :: rest =>
    match monthNames.findIdx? (fun n => n == pyLower [c1, c2, c3]) with
    | some i => some ((i : ℤ) + 1, rest)
    | none => none
  | _ => none

/-- Consume a 1-2 digit field: two digits are taken when their value is in
`[lo2, hi2]` (the two-digit regex alternatives), else one digit when its value
is at least `lo1` (the one-digit alternative). -/
def parseNum2 (lo2 hi2 lo1 : ℤ) : List Char → Option (ℤ × List Char)
  | c1 :: c2 :: rest =>
    match digitVal? c1, digitVal? c2 with
    | some d1, some d2 =>
      let v := 10 * d1 + d2
      if lo2 ≤ v ∧ v ≤ hi2 then some (v, rest)
      else if lo1 ≤ d1 then some (d1, c2 :: rest) else none
    | some d1, none => if lo1 ≤ d1 then some (d1, c2 :: rest) else none
    | none, _ => none
  | [c1] =>
    match digitVal? c1 with
    | some d1 => if lo1 ≤ d1 then some (d1, []) else none
    | none => none
  | [] => none

/-- Consume exactly four year digits (`%Y`). -/
def parseYear (l : List Char) : Option (ℤ × List Char) :=
  match l with
  | c1 :: c2 :: c3 :: c4 :: rest =>
    match digitVal? c1, digitVal? c2, digitVal? c3, digitVal? c4 with
    | some d1, some d2, some d3, some d4 =>
      some (1000 * d1 + 100 * d2 + 10 * d3 + d4, rest)
    | _, _, _, _ => none
  | _ => none

/-- Consume a UTC offset (`%z`): `±HHMM` or `±HH:MM`; the resulting offset in
seconds must be strictly less than 24 hours in magnitude (the bound
`datetime.timezone` enforces). -/
def parseTz (l : List Char) : Option (ℤ × List Char) :=
  match l with
  | sign :: c1 :: c2 :: rest0 =>
    if sign == '+' || sign == '-' then
      match digitVal? c1, digitVal? c2 with
      | some d1, some d2 =>
        let hh := 10 * d1 + d2
        let rest1 := match rest0 with
          | ':' :: r => r
          | r => r
        match rest1 with
        | c3 :: c4 :: rest =>
          match digitVal? c3, digitVal? c4 with
          | some d3, some d4 =>
            if d3 ≤ 5 then
              let mm := 10 * d3 + d4
              let off := hh * 3600 + mm * 60
              if off < 86400 then
                some (if sign == '-' then -off else off, rest)
              else none
            else none
          | _, _ => none
        | _ => none
      | _, _ => none
    else none
  | _ => none

/-- Is `y` a Gregorian leap year? -/
def isLeapYear (y : ℤ) : Bool := y % 4 == 0 && (y % 100 != 0 || y % 400 == 0)

/-- Day count of a month (the validation `datetime(...)` performs). -/
def daysInMonth (y m : ℤ) : ℤ :=
  if m = 2 then (if isLeapYear y then 29 else 28)
  else if m = 4 ∨ m = 6 ∨ m = 9 ∨ m = 11 then 30
  else 31

/-- Days from 1970-01-01 to the civil date `y-m-d` (proleptic Gregorian); the
standard era-based formula, with all intermediate quantities non-negative for
the validated input range so that truncated and floored division agree. -/
def daysFromCivil (y m d : ℤ) : ℤ :=
  let y' := if m ≤ 2 then y - 1 else y
  let era := y' / 400
  let yoe := y' - era * 400
  let mp := (m + 9) % 12
  let doy := (153 * mp + 2) / 5 + d - 1
  let doe := yoe * 365 + yoe / 4 - yoe / 100 + doy
  era * 146097 + doe - 719468

/-- Models `parse_pubdate` (`src/utils/time_window.py`): parse an RFC-822
style timestamp, returning the denoted instant in seconds since the epoch, or
`none` on any parse or validation failure (the caught `ValueError`). -/
def parse_pubdate (pubdate_str : String) : Option ℤ :=
  match parseWeekday pubdate_str.data with
  | none => none
  | some s =>
  match expectChar ',' s with
  | none => none
  | some s =>
  match dropWs1 s with
  | none => none
  | some s =>
  match parseNum2 1 31 1 s with
  | none => none
  | some (d, s) =>
  match dropWs1 s with
  | none => none
  | some s =>
  match parseMonth s with
  | none => none
  | some (m, s) =>
  match dropWs1 s with
  | none => none
  | some s =>
  match parseYear s with
  | none => none
  | some (y, s) =>
  match dropWs1 s with
  | none => none
  | some s =>
  match parseNum2 0 23 0 s with
  | none => none
  | some (hh, s) =>
  match expectChar ':' s with
  | none => none
  | some s =>
  match parseNum2 0 59 0 s with
  | none => none
  | some (mi, s) =>
  match expectChar ':' s with
  | none => none
  | some s =>
  match parseNum2 0 61 0 s with
  | none => none
  | some (ss, s) =>
  match dropWs1 s with
  | none => none
  | some s =>
  match parseTz s with
  | none => none
  | some (off, s) =>
    if s ≠ [] then none                   -- strptime requires a full match
    else if 60 ≤ ss then none             -- datetime() rejects leap seconds
    else if y = 0 then none               -- datetime.MINYEAR is 1
    else if daysInMonth y m < d then none -- datetime() validates the day
    else some (daysFromCivil y m d * 86400 + hh * 3600 + mi * 60 + ss - off)

/-- Models `is_within_time_window` (`src/utils/time_window.py`); the window
bounds are aware datetimes, modelled by the instants they denote. -/
def is_within_time_window (pubdate_str : String) (start_time end_time : ℤ) : Bool :=
  match parse_pubdate pubdate_str with
  | none => false
  | some t => decide (start_time ≤ t ∧ t ≤ end_time)

/-! ## `src/filters.py` -/

/-- Models `extract_domain` (`src/filters.py`).  A URL starting with `http`
has everything up to `://` removed; `url.split('://', 1)[1]` raises
`IndexError` when `://` is absent, which the function catches and turns into
the empty string.  The domain is the part before the first `/`, with a
leading `www.` removed. -/
def extract_domain (url : String) : String :=
  let afterScheme : Option (List Char) :=
    if startsWithSeq "http".data url.data then
      match splitFirst "://".data url.data with
      | some (_, rest) => some rest
      | none => none
    else some url.data
  match afterScheme with
  | none => ""
  | some u =>
    let domain := match splitFirst "/".data u with
      | some (before, _) => before
      | none => u
    let domain := if startsWithSeq "www.".data domain then domain.drop 4 else domain
    String.mk domain

/-- Models `filter_by_allowed_sources` (`src/filters.py`); `sources` is the
`ALLOWED_SOURCES` table (publisher name, domain substring) from the
configuration module `constants.py`, passed as a parameter.  An item is kept
when its link is non-empty, its extracted domain is non-empty, and some
allow-listed domain is a substring of that domain. -/
def filter_by_allowed_sources (sources : List (String × String))
    (news_items : List NewsItem) : List NewsItem :=
  if news_items.isEmpty then []
  else news_items.filter (fun item =>
    item.link != "" &&
    (let domain := extract_domain item.link
     domain != "" && sources.any (fun p => containsSeq p.2.data domain.data)))

/-- Models `filter_by_time_window` (`src/filters.py`): items with an empty
`pubDate` are skipped; otherwise `is_within_time_window` decides. -/
def filter_by_time_window (start_time end_time : ℤ)
    (news_items : List NewsItem) : List NewsItem :=
  if news_items.isEmpty then []
  else news_items.filter (fun item =>
    item.pubDate != "" && is_within_time_window item.pubDate start_time end_time)

/-- Models `filter_by_negative_keywords` (`src/filters.py`);
`negative_keywords` is the `NEGATIVE_KEYWORDS` list from `constants.py`,
passed as a parameter.  An item is dropped as soon as some keyword occurs,
case-insensitively, in its title or in its description. -/
def filter_by_negative_keywords (negative_keywords : List String)
    (news_items : List NewsItem) : List NewsItem :=
  if news_items.isEmpty then []
  else news_items.filter (fun item =>
    let title := pyLower item.title.data
    let description := pyLower item.description.data
    !(negative_keywords.any (fun kw =>
      containsSeq (pyLower kw.data) title || containsSeq (pyLower kw.data) description)))

/-- Models `get_source_name` (`src/filters.py`): the first allow-list entry
whose domain is a substring of the link's extracted domain names the source;
otherwise the domain itself is returned. -/
def get_source_name (sources : List (String × String)) (link : String) : String :=
  let domain := extract_domain link
  match sources.find? (fun p => containsSeq p.2.data domain.data) with
  | some p => p.1
  | none => domain

/-- Models `add_source_info` (`src/filters.py`): enrich each item with its
source name and domain. -/
def add_source_info (sources : List (String × String))
    (news_items : List NewsItem) : List NewsItem :=
  news_items.map (fun item =>
    { item with source_name := get_source_name sources item.link,
                domain := extract_domain item.link })

/-- Models `apply_all_filters` (`src/filters.py`): allow-listed sources, then
time window, then negative keywords. -/
def apply_all_filters (sources : List (String × String))
    (negative_keywords : List String) (start_time end_time : ℤ)
    (news_items : List NewsItem) : List NewsItem :=
  if news_items.isEmpty then []
  else filter_by_negative_keywords negative_keywords
    (filter_by_time_window start_time end_time
      (filter_by_allowed_sources sources news_items))

/-! ## `src/services/gpt_judger.py` — scalar classifier (`GPTPrintJudger`) -/

/-- Outcome of one scalar classification call, as seen by
`GPTPrintJudger.judge_single_news`: the API call raised (outer
`try`/`except`), or `float(content)` raised `ValueError`, or `float(content)`
produced the value carried by `num`. -/
inductive ScalarResp where
  | apiFail : ScalarResp
  | nonNumeric : ScalarResp
  | num : ℚ → ScalarResp
deriving DecidableEq

/-- Models `GPTPrintJudger.judge_single_news`: a numeric response inside
`[0.0, 1.0]` is returned as the score; an out-of-range or non-numeric
response, or a failed call, yields `None`. -/
def GPTPrintJudger.judge_single_news (resp : ScalarResp) : Option ℚ :=
  match resp with
  | .apiFail => none
  | .nonNumeric => none
  | .num score => if 0 ≤ score ∧ score ≤ 1 then some score else none

/-- One iteration of the loop in `GPTPrintJudger.judge_multiple_news`: when
the single judgment succeeds the item's `print_score` is set, and the item is
emitted iff the score reaches the threshold. -/
def GPTPrintJudger.judgeItem (resp : NewsItem → ScalarResp) (threshold : ℚ)
    (item : NewsItem) : Option NewsItem :=
  match GPTPrintJudger.judge_single_news (resp item) with
  | none => none
  | some print_score =>
    if threshold ≤ print_score then some { item with print_score := some print_score }
    else none

/-- Models `GPTPrintJudger.judge_multiple_news`.  The Python loop walks the
list in batches of five but visits every item exactly once in input order and
appends survivors to a single output list, so the batch bookkeeping is the
identity on the result; `resp` gives each item's classification outcome. -/
def GPTPrintJudger.judge_multiple_news (resp : NewsItem → ScalarResp)
    (threshold : ℚ) (news_items : List NewsItem) : List NewsItem :=
  news_items.filterMap (GPTPrintJudger.judgeItem resp threshold)

/-! ## `src/services/gpt_judger.py` — structured classifier (`GPTNewsFilter`) -/

/-- Outcome of `float(score_text)` on a numeric field of a structured
response line. -/
inductive NumField where
  | valid : ℚ → NumField
  | malformed : NumField
deriving DecidableEq

/-- One (stripped) line of a structured classifier response, classified by
the label prefix `_parse_integrated_response` dispatches on (the five labels
have pairwise distinct first characters, so at most one matches).  A numeric
line carries the `float` outcome of its value text; an include line carries
whether its value text contains one of the affirmative tokens
`예` or `포함`; a reason line carries its stripped value text. -/
inductive RespLine where
  | printLine : NumField → RespLine
  | utilLine : NumField → RespLine
  | totalLine : NumField → RespLine
  | includeLine : Bool → RespLine
  | reasonLine : String → RespLine
  | otherLine : RespLine
deriving DecidableEq

/-- The result dict as initialized in `_parse_integrated_response`. -/
def initJudgment : Judgment :=
  { print_score := 0, utility_score := 0, total_score := 0,
    includeFlag := false, reason := "" }

/-- Effect of one response line on the result record: a numeric field is
overwritten only by a valid value inside `[0.0, 1.0]`; an include line always
overwrites the include decision; a reason line overwrites the reason. -/
def applyLine (r : Judgment) (line : RespLine) : Judgment :=
  match line with
  | .printLine (.valid score) =>
    if 0 ≤ score ∧ score ≤ 1 then { r with print_score := score } else r
  | .printLine .malformed => r
  | .utilLine (.valid score) =>
    if 0 ≤ score ∧ score ≤ 1 then { r with utility_score := score } else r
  | .utilLine .malformed => r
  | .totalLine (.valid score) =>
    if 0 ≤ score ∧ score ≤ 1 then { r with total_score := score } else r
  | .totalLine .malformed => r
  | .includeLine affirm => { r with includeFlag := affirm }
  | .reasonLine s => { r with reason := s }
  | .otherLine => r

/-- Models `GPTNewsFilter._parse_integrated_response`, folding the response
lines over the defaulted result record. -/
def GPTNewsFilter.parse_integrated_response (lines : List RespLine) : Judgment :=
  lines.foldl applyLine initJudgment

/-- One iteration of the judging loop in
`GPTNewsFilter.filter_and_dedupe_news`: a failed call (`resp item = none`)
contributes nothing; otherwise the parsed judgment is attached and the item
is emitted iff its total score reaches the threshold and it is marked for
inclusion. -/
def GPTNewsFilter.judgeItem (resp : NewsItem → Option (List RespLine))
    (threshold : ℚ) (item : NewsItem) : Option NewsItem :=
  match resp item with
  | none => none
  | some lines =>
    let judgment_result := GPTNewsFilter.parse_integrated_response lines
    if threshold ≤ judgment_result.total_score ∧ judgment_result.includeFlag then
      some { item with judgment_result := some judgment_result }
    else none

/-- The judged set built by step 1 of `GPTNewsFilter.filter_and_dedupe_news`
(batches of five visit every item once in input order). -/
def GPTNewsFilter.judged_items (resp : NewsItem → Option (List RespLine))
    (threshold : ℚ) (news_items : List NewsItem) : List NewsItem :=
  news_items.filterMap (GPTNewsFilter.judgeItem resp threshold)

/-- Models `GPTNewsFilter._normalize_title`: drop characters that are neither
word characters nor whitespace, collapse whitespace runs to single spaces,
strip, and lower-case. -/
def normalize_title (title : List Char) : List Char :=
  pyLower (pyStrip (collapseWs (title.filter (fun c => pyIsWordChar c || pyIsSpace c))))

/-- Grouping key of an item in `_dedupe_with_print_priority`: the normalized
form of its stripped title. -/
def titleKey (it : NewsItem) : List Char := normalize_title (pyStrip it.title.data)

/-- Does the item survive the `if not title: continue` guard of
`_dedupe_with_print_priority` (title non-empty after stripping)? -/
def validTitle (it : NewsItem) : Bool := !(pyStrip it.title.data).isEmpty

/-- Keys in order of first occurrence (Python dict insertion order). -/
def distinctKeysAux : List (List Char) → List (List Char) → List (List Char)
  | [], acc => acc.reverse
  | k :: ks, acc => if k ∈ acc then distinctKeysAux ks acc else distinctKeysAux ks (k :: acc)

/-- Keys in order of first occurrence (Python dict insertion order). -/
def distinctKeys (ks : List (List Char)) : List (List Char) := distinctKeysAux ks []

/-- The `source_priority` dict of `GPTNewsFilter._select_best_from_group`,
accessed through `source_priority.get(source_name, 0)`; the ten keys are
pairwise distinct, so the dict access is this decision chain. -/
def source_priority_get (source_name : String) : ℚ :=
  if source_name = "조선일보" then 10 else if source_name = "중앙일보" then 9
  else if source_name = "동아일보" then 8 else if source_name = "조선비즈" then 7
  else if source_name = "매거진한경" then 6 else if source_name = "한국경제" then 5
  else if source_name = "매일경제" then 4 else if source_name = "연합뉴스" then 3
  else if source_name = "파이낸셜뉴스" then 2 else if source_name = "머니투데이" then 1
  else 0

/-- The combined score computed in `_select_best_from_group`:
`print_score * 0.6 + total_score * 0.3 + (source_priority.get(name, 0) / 10) * 0.1`,
with a missing `judgment_result` contributing `0.0` scores. -/
def combined_score (it : NewsItem) : ℚ :=
  let print_score : ℚ := match it.judgment_result with
    | some j => j.print_score
    | none => 0
  let total_score : ℚ := match it.judgment_result with
    | some j => j.total_score
    | none => 0
  let source_score : ℚ := source_priority_get it.source_name / 10
  print_score * 0.6 + total_score * 0.3 + source_score * 0.1

/-- Models `GPTNewsFilter._select_best_from_group`: start from the first
item with a best score of `-1` and replace the champion whenever a strictly
greater combined score appears (so ties keep the earlier item). -/
def select_best (group : List NewsItem) : NewsItem :=
  match group with
  | [] => emptyItem
  | g0 :: _ =>
    (group.foldl (fun acc it =>
      if acc.2 < combined_score it then (it, combined_score it) else acc)
      (g0, (-1 : ℚ))).1

/-- Models `GPTNewsFilter._dedupe_with_print_priority`: group the items with
non-blank titles by normalized title (dict insertion order: keys in order of
first occurrence, each group in encounter order), then emit, per group, the
single member when the group is a singleton and the best-scoring member
otherwise. -/
def dedupe_with_print_priority (news_items : List NewsItem) : List NewsItem :=
  let valid := news_items.filter validTitle
  let keys := distinctKeys (valid.map titleKey)
  keys.map (fun k =>
    let group := valid.filter (fun it => titleKey it == k)
    if group.length == 1 then group.headD emptyItem else select_best group)

/-- Models `GPTNewsFilter.filter_and_dedupe_news`: judge every item, then
collapse near-duplicates of the survivors. -/
def GPTNewsFilter.filter_and_dedupe_news (resp : NewsItem → Option (List RespLine))
    (threshold : ℚ) (news_items : List NewsItem) : List NewsItem :=
  if news_items.isEmpty then []
  else dedupe_with_print_priority (GPTNewsFilter.judged_items resp threshold news_items)

/-! ## `src/app.py` -/

/-- Models `execute_news_search` (`src/app.py`).  The search collaborator's
accumulated hits are `raw_results`; `gpt` is the classifier collaborator:
`none` when constructing or running the scalar judger raises (the inner
`try`/`except`, e.g. classifier outage or missing credentials), otherwise the
per-item response outcomes. -/
def execute_news_search (sources : List (String × String))
    (negative_keywords : List String) (start_time end_time : ℤ)
    (use_gpt : Bool) (threshold : ℚ)
    (gpt : Option (NewsItem → ScalarResp)) (raw_results : List NewsItem) : List NewsItem :=
  if raw_results.isEmpty then []
  else
    let filtered_results := apply_all_filters sources negative_keywords
      start_time end_time raw_results
    if filtered_results.isEmpty then []
    else
      let enriched_results := add_source_info sources filtered_results
      let cleaned_results := clean_news_data enriched_results
      if use_gpt && !cleaned_results.isEmpty then
        match gpt with
        | none => cleaned_results
        | some resp =>
          let judged_results := GPTPrintJudger.judge_multiple_news resp threshold cleaned_results
          if judged_results.isEmpty then [] else judged_results
      else cleaned_results

/-! ## Helper lemmas about `rdlAux` (exact-link dedupe) -/

/-- The kept items form a sublist of the traversed list. -/
theorem rdlAux_sublist (l : List NewsItem) : ∀ seen, List.Sublist (rdlAux l seen) l := by
  induction l with
  | nil => intro seen; simp [rdlAux]
  | cons item rest ih =>
    intro seen
    by_cases h : item.link ≠ "" ∧ item.link ∉ seen
    · simpa [rdlAux, h] using List.Sublist.cons₂ item (ih (item.link :: seen))
    · simpa [rdlAux, h] using List.Sublist.cons item (ih seen)

/-- Every kept item has a non-empty link. -/
theorem rdlAux_link_ne (l : List NewsItem) :
    ∀ seen, ∀ it ∈ rdlAux l seen, it.link ≠ "" := by
  induction l with
  | nil => intro seen it h; simp [rdlAux] at h
  | cons item rest ih =>
    intro seen it h
    by_cases hc : item.link ≠ "" ∧ item.link ∉ seen
    · simp only [rdlAux, if_pos hc, List.mem_cons] at h
      rcases h with h | h
      · exact h ▸ hc.1
      · exact ih _ it h
    · simp only [rdlAux, if_neg hc] at h
      exact ih _ it h

/-- A link already seen never occurs among the kept items. -/
theorem rdlAux_filter_seen (l : List NewsItem) :
    ∀ seen L, L ∈ seen →
      (rdlAux l seen).filter (fun it => it.link == L) = [] := by
  induction l with
  | nil => intro seen L _; simp [rdlAux]
  | cons item rest ih =>
    intro seen L hL
    by_cases hc : item.link ≠ "" ∧ item.link ∉ seen
    · have hne : (item.link == L) = false := by
        simp only [beq_eq_false_iff_ne, ne_eq]
        intro h; exact hc.2 (h ▸ hL)
      simp only [rdlAux, if_pos hc, List.filter_cons, hne]
      exact ih (item.link :: seen) L (List.mem_cons_of_mem _ hL)
    · simp only [rdlAux, if_neg hc]
      exact ih seen L hL

/-- For an unseen non-empty link `L`, the kept items with link `L` are exactly
the first traversed item carrying `L` (if any). -/
theorem rdlAux_filter_unseen (l : List NewsItem) :
    ∀ seen L, L ≠ "" → L ∉ seen →
      (rdlAux l seen).filter (fun it => it.link == L) =
        (l.find? (fun it => it.link == L)).toList := by
  induction l with
  | nil => intro seen L _ _; simp [rdlAux]
  | cons item rest ih =>
    intro seen L hL hseen
    by_cases heq : item.link = L
    · have hc : item.link ≠ "" ∧ item.link ∉ seen := by
        constructor
        · rw [heq]; exact hL
        · rw [heq]; exact hseen
      have hz := rdlAux_filter_seen rest (item.link :: seen) L
        (by rw [heq]; exact List.mem_cons_self _ _)
      have hbeq : (item.link == L) = true := by simpa using heq
      simp only [rdlAux, if_pos hc, List.filter_cons, List.find?_cons, hbeq]
      simp [hz]
    · have hne : (item.link == L) = false := by simpa using heq
      by_cases hc : item.link ≠ "" ∧ item.link ∉ seen
      · simp only [rdlAux, if_pos hc, List.filter_cons, hne, List.find?_cons,
          Bool.false_eq_true, if_false]
        exact ih (item.link :: seen) L hL (by
          intro h
          rcases List.mem_cons.mp h with h | h
          · exact heq h.symm
          · exact hseen h)
      · simp only [rdlAux, if_neg hc, List.find?_cons, hne, Bool.false_eq_true, if_false]
        exact ih seen L hL hseen

/-- The kept links are pairwise distinct and avoid the seen set. -/
theorem rdlAux_links_nodup (l : List NewsItem) :
    ∀ seen, ((rdlAux l seen).map (fun it => it.link)).Nodup ∧
      ∀ L ∈ seen, L ∉ (rdlAux l seen).map (fun it => it.link) := by
  induction l with
  | nil => intro seen; simp [rdlAux]
  | cons item rest ih =>
    intro seen
    by_cases hc : item.link ≠ "" ∧ item.link ∉ seen
    · obtain ⟨hnd, hout⟩ := ih (item.link :: seen)
      refine ⟨?_, ?_⟩
      · simp only [rdlAux, if_pos hc, List.map_cons, List.nodup_cons]
        exact ⟨hout item.link (List.mem_cons_self _ _), hnd⟩
      · intro L hL
        simp only [rdlAux, if_pos hc, List.map_cons, List.mem_cons, not_or]
        refine ⟨?_, hout L (List.mem_cons_of_mem _ hL)⟩
        intro h; exact hc.2 (h ▸ hL)
    · obtain ⟨hnd, hout⟩ := ih seen
      simp only [rdlAux, if_neg hc]
      exact ⟨hnd, hout⟩

/-- On a list whose links are non-empty, pairwise distinct and unseen,
the traversal keeps everything. -/
theorem rdlAux_of_nodup (l : List NewsItem) :
    ∀ seen, (∀ it ∈ l, it.link ≠ "") → ((l.map (fun it => it.link)).Nodup) →
      (∀ it ∈ l, it.link ∉ seen) → rdlAux l seen = l := by
  induction l with
  | nil => intro seen _ _ _; rfl
  | cons item rest ih =>
    intro seen hne hnd hseen
    have hc : item.link ≠ "" ∧ item.link ∉ seen :=
      ⟨hne item (List.mem_cons_self _ _), hseen item (List.mem_cons_self _ _)⟩
    have hnd2 : (∀ x ∈ rest, ¬ x.link = item.link) ∧
        ((rest.map (fun it => it.link)).Nodup) := by simpa using hnd
    simp only [rdlAux, if_pos hc]
    congr 1
    apply ih (item.link :: seen)
    · intro it h; exact hne it (List.mem_cons_of_mem _ h)
    · exact hnd2.2
    · intro it h
      simp only [List.mem_cons, not_or]
      exact ⟨hnd2.1 it h, hseen it (List.mem_cons_of_mem _ h)⟩

/-! ## Claim C3 -/

/-- An item whose link is empty, used to exercise the empty-link branch of
the exact-link dedupe. -/
def blankLinkItem : NewsItem := { emptyItem with title := "제목" }

/-- C3 counterexample: the claim asserts every empty-link item is kept, but
`remove_duplicate_links` drops the (sole, empty-link) item of this list. -/
theorem remove_duplicate_links_drops_empty_link :
    blankLinkItem.link = "" ∧ blankLinkItem ∈ [blankLinkItem] ∧
      remove_duplicate_links [blankLinkItem] = [] := by
  refine ⟨rfl, List.mem_singleton.mpr rfl, ?_⟩
  rfl

/-- C3 (amended): exact-link dedupe keeps exactly one item per distinct
non-empty link — the last-arriving copy — restores the original relative
order among survivors (the result is a sublist of the input), and drops
every item whose link is empty. -/
theorem remove_duplicate_links_spec (news_items : List NewsItem) :
    List.Sublist (remove_duplicate_links news_items) news_items ∧
    (∀ it ∈ remove_duplicate_links news_items, it.link ≠ "") ∧
    (∀ L : String, L ≠ "" →
      (remove_duplicate_links news_items).filter (fun it => it.link == L) =
        (news_items.reverse.find? (fun it => it.link == L)).toList) := by
  refine ⟨?_, ?_, ?_⟩
  · have h := rdlAux_sublist news_items.reverse []
    have := h.reverse
    simpa [remove_duplicate_links] using this
  · intro it h
    rw [remove_duplicate_links, List.mem_reverse] at h
    exact rdlAux_link_ne news_items.reverse [] it h
  · intro L hL
    rw [remove_duplicate_links, List.filter_reverse,
      rdlAux_filter_unseen news_items.reverse [] L hL (List.not_mem_nil L)]
    cases List.find? (fun it => it.link == L) news_items.reverse <;> rfl

/-- C3 witness: on a concrete two-copy list the survivor with the duplicated
link is the last-arriving copy. -/
theorem remove_duplicate_links_spec_witness :
    ("L" : String) ≠ "" ∧
      (remove_duplicate_links
        [{ emptyItem with title := "a", link := "L" },
         { emptyItem with title := "b", link := "L" }]).filter (fun it => it.link == "L") =
      ([{ emptyItem with title := "a", link := "L" },
        { emptyItem with title := "b", link := "L" }].reverse.find?
          (fun it => it.link == "L")).toList :=
  ⟨by decide,
    (remove_duplicate_links_spec
      [{ emptyItem with title := "a", link := "L" },
       { emptyItem with title := "b", link := "L" }]).2.2 "L" (by decide)⟩

/-! ## Claim C5 -/

/-- C5: exact-link dedupe is idempotent. -/
theorem remove_duplicate_links_idempotent (news_items : List NewsItem) :
    remove_duplicate_links (remove_duplicate_links news_items) =
      remove_duplicate_links news_items := by
  rw [remove_duplicate_links, remove_duplicate_links, List.reverse_reverse]
  rw [rdlAux_of_nodup (rdlAux news_items.reverse []) []]
  · intro it h; exact rdlAux_link_ne news_items.reverse [] it h
  · exact (rdlAux_links_nodup news_items.reverse []).1
  · intro it _; exact List.not_mem_nil _

/-! ## Claim C6 -/

/-- C6 counterexample: on the garbage input `"garbage"` the extractor
returns the input itself, not the empty string the claim requires. -/
theorem extract_domain_garbage_not_empty :
    extract_domain "garbage" = "garbage" ∧ ("garbage" : String) ≠ "" := by
  exact ⟨rfl, by decide⟩

/-- C6 (amended): the example URL yields `example.com`, the empty input
yields the empty string, and an `http`-prefixed input without a `://`
separator (the case where Python would hit `IndexError`) yields the empty
string — the function is total, never raising — but garbage input without an
`http` prefix degrades to best-effort substring extraction rather than
returning the empty string. -/
theorem extract_domain_examples :
    extract_domain "https://www.example.com/a/b" = "example.com" ∧
    extract_domain "" = "" ∧
    extract_domain "http" = "" ∧
    extract_domain "garbage" = "garbage" := by
  exact ⟨rfl, rfl, rfl, rfl⟩

/-! ## Claim C10 -/

/-- C10 counterexample: the keyword `bc` occurs, case-insensitively, in the
concatenation of title `ab` and description `cd`, yet the item is kept: the
filter matches against title and description separately, never against their
concatenation. -/
theorem negative_keyword_concat_not_dropped :
    (containsSeq (pyLower "bc".data)
        (pyLower (({ emptyItem with title := "ab", description := "cd" } : NewsItem).title.data ++
          ({ emptyItem with title := "ab", description := "cd" } : NewsItem).description.data)) = true) ∧
    filter_by_negative_keywords ["bc"]
        [{ emptyItem with title := "ab", description := "cd" }] =
      [{ emptyItem with title := "ab", description := "cd" }] := by
  exact ⟨rfl, rfl⟩

/-- C10 (amended): if any blocked keyword occurs case-insensitively as a
substring of the item's title, or as a substring of the item's description
(the two fields are tested separately), the item is always excluded. -/
theorem negative_keyword_match_excludes
    (negative_keywords : List String) (news_items : List NewsItem) (it : NewsItem)
    (kw : String) (hkw : kw ∈ negative_keywords)
    (hmatch : containsSeq (pyLower kw.data) (pyLower it.title.data) = true ∨
      containsSeq (pyLower kw.data) (pyLower it.description.data) = true) :
    it ∉ filter_by_negative_keywords negative_keywords news_items := by
  intro hmem
  rw [filter_by_negative_keywords] at hmem
  by_cases hne : news_items.isEmpty
  · rw [if_pos hne] at hmem
    exact List.not_mem_nil it hmem
  · rw [if_neg hne] at hmem
    have hkeep := (List.mem_filter.mp hmem).2
    simp only [Bool.not_eq_true', List.any_eq_false] at hkeep
    have := hkeep kw hkw
    rcases hmatch with h | h <;> simp [h] at this

/-- C10 witness: the spec's own example — an entertainment keyword blocked
case-insensitively excludes the item whose title contains it. -/
theorem negative_keyword_match_excludes_witness :
    ("bts" : String) ∈ ["bts"] ∧
    containsSeq (pyLower "bts".data)
      (pyLower ({ emptyItem with title := "BTS 지민, 새 앨범 발매 예고" } : NewsItem).title.data) = true ∧
    ({ emptyItem with title := "BTS 지민, 새 앨범 발매 예고" } : NewsItem) ∉
      filter_by_negative_keywords ["bts"]
        [{ emptyItem with title := "BTS 지민, 새 앨범 발매 예고" }] :=
  ⟨List.mem_singleton.mpr rfl, rfl,
    negative_keyword_match_excludes ["bts"] _ _ "bts" (List.mem_singleton.mpr rfl)
      (Or.inl rfl)⟩

/-! ## Claim C4 -/

/-- C4: with a fixed per-item classification outcome, retention by the
scalar classifier is threshold-monotone — everything retained at the higher
threshold `t2` is retained at the lower `t1` — and, at any threshold, an
item is retained iff its classification succeeded with a score at or above
the threshold (inclusive). -/
theorem scalar_retention_monotone (resp : NewsItem → ScalarResp)
    (news_items : List NewsItem) (t1 t2 : ℚ) (h : t1 < t2) :
    (∀ x ∈ GPTPrintJudger.judge_multiple_news resp t2 news_items,
        x ∈ GPTPrintJudger.judge_multiple_news resp t1 news_items) ∧
    (∀ t : ℚ, ∀ item : NewsItem,
        (GPTPrintJudger.judgeItem resp t item).isSome ↔
          ∃ s, GPTPrintJudger.judge_single_news (resp item) = some s ∧ t ≤ s) := by
  constructor
  · intro x hx
    rw [GPTPrintJudger.judge_multiple_news, List.mem_filterMap] at hx ⊢
    obtain ⟨a, ha, hj⟩ := hx
    refine ⟨a, ha, ?_⟩
    cases hs : GPTPrintJudger.judge_single_news (resp a) with
    | none => simp [GPTPrintJudger.judgeItem, hs] at hj
    | some s =>
      simp only [GPTPrintJudger.judgeItem, hs] at hj ⊢
      by_cases ht2 : t2 ≤ s
      · rw [if_pos ht2] at hj
        rw [if_pos (le_trans h.le ht2)]
        exact hj
      · rw [if_neg ht2] at hj; exact absurd hj (by simp)
  · intro t item
    cases hs : GPTPrintJudger.judge_single_news (resp item) with
    | none => simp [GPTPrintJudger.judgeItem, hs]
    | some s =>
      by_cases ht : t ≤ s
      · simp [GPTPrintJudger.judgeItem, hs, ht]
      · simp only [GPTPrintJudger.judgeItem, hs, if_neg ht, Option.isSome_none,
          Bool.false_eq_true, false_iff, not_exists, not_and]
        intro s' hs'
        exact fun hle => ht (Option.some_inj.mp hs' ▸ hle)

/-- C4 witness: with score `3/4` everywhere, the single item retained at
threshold `3/4` is also retained at threshold `1/2`. -/
theorem scalar_retention_monotone_witness :
    ((1 : ℚ)/2 < 3/4) ∧
    ({ emptyItem with print_score := some (3/4) } ∈
      GPTPrintJudger.judge_multiple_news (fun _ => ScalarResp.num (3/4)) (1/2) [emptyItem]) := by
  refine ⟨by norm_num, ?_⟩
  apply (scalar_retention_monotone (fun _ => ScalarResp.num (3/4)) [emptyItem]
    (1/2) (3/4) (by norm_num)).1
  simp [GPTPrintJudger.judge_multiple_news, GPTPrintJudger.judgeItem,
    GPTPrintJudger.judge_single_news]
  norm_num

/-! ## Claim C7 -/

/-- C7: in scalar mode, an item whose response is non-numeric or whose
numeric value falls outside `[0.0, 1.0]` contributes nothing to the judged
set (its `print_score` is never set, it is dropped rather than defaulted),
and consequently every item of the output carries a `print_score` inside
`[0.0, 1.0]`. -/
theorem scalar_invalid_never_sets_score (resp : NewsItem → ScalarResp)
    (threshold : ℚ) (news_items : List NewsItem) :
    (∀ item : NewsItem, resp item = ScalarResp.nonNumeric →
        GPTPrintJudger.judgeItem resp threshold item = none) ∧
    (∀ item : NewsItem, ∀ q : ℚ, resp item = ScalarResp.num q → (q < 0 ∨ 1 < q) →
        GPTPrintJudger.judgeItem resp threshold item = none) ∧
    (∀ x ∈ GPTPrintJudger.judge_multiple_news resp threshold news_items,
        ∃ q : ℚ, x.print_score = some q ∧ 0 ≤ q ∧ q ≤ 1) := by
  refine ⟨?_, ?_, ?_⟩
  · intro item h
    simp [GPTPrintJudger.judgeItem, GPTPrintJudger.judge_single_news, h]
  · intro item q h hq
    have hnr : ¬ (0 ≤ q ∧ q ≤ 1) := by
      rcases hq with hq | hq
      · exact fun hc => absurd hc.1 (not_le.mpr hq)
      · exact fun hc => absurd hc.2 (not_le.mpr hq)
    simp [GPTPrintJudger.judgeItem, GPTPrintJudger.judge_single_news, h, hnr]
  · intro x hx
    rw [GPTPrintJudger.judge_multiple_news, List.mem_filterMap] at hx
    obtain ⟨a, _, hj⟩ := hx
    cases hs : GPTPrintJudger.judge_single_news (resp a) with
    | none => simp [GPTPrintJudger.judgeItem, hs] at hj
    | some s =>
      simp only [GPTPrintJudger.judgeItem, hs] at hj
      by_cases ht : threshold ≤ s
      · rw [if_pos ht, Option.some_inj] at hj
        have hrange : 0 ≤ s ∧ s ≤ 1 := by
          cases hr : resp a with
          | apiFail => simp [GPTPrintJudger.judge_single_news, hr] at hs
          | nonNumeric => simp [GPTPrintJudger.judge_single_news, hr] at hs
          | num q =>
            by_cases hq : 0 ≤ q ∧ q ≤ 1
            · have : s = q := by
                simp [GPTPrintJudger.judge_single_news, hr, hq] at hs
                exact hs.symm
              exact this ▸ hq
            · simp [GPTPrintJudger.judge_single_news, hr, hq] at hs
        exact ⟨s, by rw [← hj], hrange⟩
      · rw [if_neg ht] at hj; exact absurd hj (by simp)

/-- C7 witness: a response of `2.0` (outside the range) is dropped, and on a
mixed input list every surviving item has an in-range `print_score`. -/
theorem scalar_invalid_never_sets_score_witness :
    ((fun _ : NewsItem => ScalarResp.num 2) emptyItem = ScalarResp.num 2) ∧
    (GPTPrintJudger.judgeItem (fun _ => ScalarResp.num 2) 0 emptyItem = none) := by
  refine ⟨rfl, ?_⟩
  exact (scalar_invalid_never_sets_score (fun _ => ScalarResp.num 2) 0 []).2.1
    emptyItem 2 rfl (Or.inr (by norm_num))

/-! ## Claim C9 -/

/-- C9: when the classifier stage is enabled but the classification pass
fails (outage — the judger constructor or call raises), the orchestrator
returns the pre-classification deduplicated result set — the cleaned
accumulation of filtering, enrichment and dedupe/sort — rather than nothing. -/
theorem execute_news_search_gpt_failure_fallback
    (sources : List (String × String)) (negative_keywords : List String)
    (start_time end_time : ℤ) (threshold : ℚ) (raw_results : List NewsItem) :
    execute_news_search sources negative_keywords start_time end_time
        true threshold none raw_results =
      clean_news_data (add_source_info sources
        (apply_all_filters sources negative_keywords start_time end_time raw_results)) := by
  rw [execute_news_search]
  by_cases hraw : raw_results.isEmpty
  · rw [if_pos hraw]
    have h0 : raw_results = [] := List.isEmpty_iff.mp hraw
    subst h0
    simp [apply_all_filters, add_source_info, clean_news_data,
      remove_duplicate_links, rdlAux, sort_by_pubdate]
  · rw [if_neg hraw]
    by_cases hfil : (apply_all_filters sources negative_keywords start_time end_time
        raw_results).isEmpty
    · rw [if_pos hfil]
      have h0 : apply_all_filters sources negative_keywords start_time end_time
          raw_results = [] := List.isEmpty_iff.mp hfil
      rw [h0]
      simp [add_source_info, clean_news_data,
        remove_duplicate_links, rdlAux, sort_by_pubdate]
    · rw [if_neg hfil]
      by_cases hcl : (clean_news_data (add_source_info sources
          (apply_all_filters sources negative_keywords start_time end_time
            raw_results))).isEmpty
      · simp [hcl]
      · simp [hcl]

/-! ## Claim C8 -/

/-- Is this response line an include/exclude decision line? -/
def isInclLine : RespLine → Bool
  | .includeLine _ => true
  | _ => false

/-- A fold over lines without a valid in-range print-likelihood value leaves
the print score untouched. -/
theorem foldl_print_of_no_valid : ∀ (lines : List RespLine) (r : Judgment),
    (∀ q : ℚ, RespLine.printLine (NumField.valid q) ∈ lines → ¬(0 ≤ q ∧ q ≤ 1)) →
    (lines.foldl applyLine r).print_score = r.print_score := by
  intro lines
  induction lines with
  | nil => intro r _; rfl
  | cons line rest ih =>
    intro r h
    rw [List.foldl_cons, ih _ (fun q hq => h q (List.mem_cons_of_mem _ hq))]
    cases line with
    | printLine v =>
      cases v with
      | valid q =>
        have := h q (List.mem_cons_self _ _)
        simp [applyLine, this]
      | malformed => rfl
    | utilLine v => cases v with
      | valid q => by_cases hq : 0 ≤ q ∧ q ≤ 1 <;> simp [applyLine, hq]
      | malformed => rfl
    | totalLine v => cases v with
      | valid q => by_cases hq : 0 ≤ q ∧ q ≤ 1 <;> simp [applyLine, hq]
      | malformed => rfl
    | includeLine b => rfl
    | reasonLine s => rfl
    | otherLine => rfl

/-- A fold over lines without a valid in-range utility value leaves the
utility score untouched. -/
theorem foldl_util_of_no_valid : ∀ (lines : List RespLine) (r : Judgment),
    (∀ q : ℚ, RespLine.utilLine (NumField.valid q) ∈ lines → ¬(0 ≤ q ∧ q ≤ 1)) →
    (lines.foldl applyLine r).utility_score = r.utility_score := by
  intro lines
  induction lines with
  | nil => intro r _; rfl
  | cons line rest ih =>
    intro r h
    rw [List.foldl_cons, ih _ (fun q hq => h q (List.mem_cons_of_mem _ hq))]
    cases line with
    | utilLine v =>
      cases v with
      | valid q =>
        have := h q (List.mem_cons_self _ _)
        simp [applyLine, this]
      | malformed => rfl
    | printLine v => cases v with
      | valid q => by_cases hq : 0 ≤ q ∧ q ≤ 1 <;> simp [applyLine, hq]
      | malformed => rfl
    | totalLine v => cases v with
      | valid q => by_cases hq : 0 ≤ q ∧ q ≤ 1 <;> simp [applyLine, hq]
      | malformed => rfl
    | includeLine b => rfl
    | reasonLine s => rfl
    | otherLine => rfl

/-- A fold over lines without a valid in-range overall value leaves the
total score untouched. -/
theorem foldl_total_of_no_valid : ∀ (lines : List RespLine) (r : Judgment),
    (∀ q : ℚ, RespLine.totalLine (NumField.valid q) ∈ lines → ¬(0 ≤ q ∧ q ≤ 1)) →
    (lines.foldl applyLine r).total_score = r.total_score := by
  intro lines
  induction lines with
  | nil => intro r _; rfl
  | cons line rest ih =>
    intro r h
    rw [List.foldl_cons, ih _ (fun q hq => h q (List.mem_cons_of_mem _ hq))]
    cases line with
    | totalLine v =>
      cases v with
      | valid q =>
        have := h q (List.mem_cons_self _ _)
        simp [applyLine, this]
      | malformed => rfl
    | printLine v => cases v with
      | valid q => by_cases hq : 0 ≤ q ∧ q ≤ 1 <;> simp [applyLine, hq]
      | malformed => rfl
    | utilLine v => cases v with
      | valid q => by_cases hq : 0 ≤ q ∧ q ≤ 1 <;> simp [applyLine, hq]
      | malformed => rfl
    | includeLine b => rfl
    | reasonLine s => rfl
    | otherLine => rfl

/-- A fold over lines with no include line leaves the include flag
untouched. -/
theorem foldl_incl_of_none : ∀ (lines : List RespLine) (r : Judgment),
    (∀ b : Bool, RespLine.includeLine b ∉ lines) →
    (lines.foldl applyLine r).includeFlag = r.includeFlag := by
  intro lines
  induction lines with
  | nil => intro r _; rfl
  | cons line rest ih =>
    intro r h
    rw [List.foldl_cons, ih _ (fun b hm => h b (List.mem_cons_of_mem _ hm))]
    cases line with
    | includeLine b => exact absurd (List.mem_cons_self _ _) (h b)
    | printLine v => cases v with
      | valid q => by_cases hq : 0 ≤ q ∧ q ≤ 1 <;> simp [applyLine, hq]
      | malformed => rfl
    | utilLine v => cases v with
      | valid q => by_cases hq : 0 ≤ q ∧ q ≤ 1 <;> simp [applyLine, hq]
      | malformed => rfl
    | totalLine v => cases v with
      | valid q => by_cases hq : 0 ≤ q ∧ q ≤ 1 <;> simp [applyLine, hq]
      | malformed => rfl
    | reasonLine s => rfl
    | otherLine => rfl

/-- With at most one include line, the folded include flag is true iff an
affirmative include line occurs. -/
theorem foldl_incl_iff : ∀ (lines : List RespLine) (r : Judgment),
    lines.countP isInclLine ≤ 1 →
    ((lines.foldl applyLine r).includeFlag = true ↔
      (RespLine.includeLine true ∈ lines ∨
        (r.includeFlag = true ∧ lines.countP isInclLine = 0))) := by
  intro lines
  induction lines with
  | nil => intro r _; simp
  | cons line rest ih =>
    intro r hcount
    cases hline : line with
    | includeLine b =>
      have h1 : (RespLine.includeLine b :: rest).countP isInclLine =
          rest.countP isInclLine + 1 := by
        simp [List.countP_cons, isInclLine]
      rw [hline] at hcount
      rw [h1] at hcount
      have hrest : rest.countP isInclLine = 0 := by omega
      have hnone : ∀ b' : Bool, RespLine.includeLine b' ∉ rest := by
        intro b' hb'
        have := List.countP_pos_iff (p := isInclLine) (l := rest)
        rw [hrest] at this
        have h2 : ¬ ((0 : ℕ) < 0) := by omega
        exact h2 (this.mpr ⟨_, hb', by simp [isInclLine]⟩)
      rw [List.foldl_cons, foldl_incl_of_none rest _ hnone]
      have hflag : (applyLine r (RespLine.includeLine b)).includeFlag = b := rfl
      rw [hflag]
      constructor
      · intro hb
        exact Or.inl (by rw [hb]; exact List.mem_cons_self _ _)
      · intro hb
        rcases hb with hb | hb
        · rcases List.mem_cons.mp hb with hb | hb
          · exact (RespLine.includeLine.injEq _ _ ▸ hb.symm ▸ rfl : b = true)
          · exact absurd hb (hnone true)
        · rw [List.countP_cons] at hb
          simp [isInclLine] at hb
    | printLine v =>
      have hc : (RespLine.printLine v :: rest).countP isInclLine = rest.countP isInclLine := by
        rw [List.countP_cons]; simp [isInclLine]
      rw [hline] at hcount
      rw [hc] at hcount
      rw [List.foldl_cons]
      have happ : (applyLine r (RespLine.printLine v)).includeFlag = r.includeFlag := by
        cases v with
        | valid q => by_cases hq : 0 ≤ q ∧ q ≤ 1 <;> simp [applyLine, hq]
        | malformed => rfl
      rw [ih _ hcount, happ, hc]
      simp
    | utilLine v =>
      have hc : (RespLine.utilLine v :: rest).countP isInclLine = rest.countP isInclLine := by
        rw [List.countP_cons]; simp [isInclLine]
      rw [hline] at hcount
      rw [hc] at hcount
      rw [List.foldl_cons]
      have happ : (applyLine r (RespLine.utilLine v)).includeFlag = r.includeFlag := by
        cases v with
        | valid q => by_cases hq : 0 ≤ q ∧ q ≤ 1 <;> simp [applyLine, hq]
        | malformed => rfl
      rw [ih _ hcount, happ, hc]
      simp
    | totalLine v =>
      have hc : (RespLine.totalLine v :: rest).countP isInclLine = rest.countP isInclLine := by
        rw [List.countP_cons]; simp [isInclLine]
      rw [hline] at hcount
      rw [hc] at hcount
      rw [List.foldl_cons]
      have happ : (applyLine r (RespLine.totalLine v)).includeFlag = r.includeFlag := by
        cases v with
        | valid q => by_cases hq : 0 ≤ q ∧ q ≤ 1 <;> simp [applyLine, hq]
        | malformed => rfl
      rw [ih _ hcount, happ, hc]
      simp
    | reasonLine sv =>
      have hc : (RespLine.reasonLine sv :: rest).countP isInclLine = rest.countP isInclLine := by
        rw [List.countP_cons]; simp [isInclLine]
      rw [hline] at hcount
      rw [hc] at hcount
      rw [List.foldl_cons]
      have happ : (applyLine r (RespLine.reasonLine sv)).includeFlag = r.includeFlag := rfl
      rw [ih _ hcount, happ, hc]
      simp
    | otherLine =>
      have hc : (RespLine.otherLine :: rest).countP isInclLine = rest.countP isInclLine := by
        rw [List.countP_cons]; simp [isInclLine]
      rw [hline] at hcount
      rw [hc] at hcount
      rw [List.foldl_cons]
      have happ : (applyLine r RespLine.otherLine).includeFlag = r.includeFlag := rfl
      rw [ih _ hcount, happ, hc]
      simp

/-- C8: in structured mode, each numeric field with no valid in-range value
among its lines (missing, malformed, or out of range) ends up `0.0`, field by
field, without failing the item; with (at most) one include line, the include
decision is true iff that line carries an affirmative token; and given a
response, an item enters the judged set iff its overall score reaches the
threshold AND its include decision is true. -/
theorem structured_parse_defaults_and_retention
    (resp : NewsItem → Option (List RespLine)) (threshold : ℚ) :
    (∀ lines : List RespLine,
      ((∀ q : ℚ, RespLine.printLine (NumField.valid q) ∈ lines → ¬(0 ≤ q ∧ q ≤ 1)) →
        (GPTNewsFilter.parse_integrated_response lines).print_score = 0) ∧
      ((∀ q : ℚ, RespLine.utilLine (NumField.valid q) ∈ lines → ¬(0 ≤ q ∧ q ≤ 1)) →
        (GPTNewsFilter.parse_integrated_response lines).utility_score = 0) ∧
      ((∀ q : ℚ, RespLine.totalLine (NumField.valid q) ∈ lines → ¬(0 ≤ q ∧ q ≤ 1)) →
        (GPTNewsFilter.parse_integrated_response lines).total_score = 0)) ∧
    (∀ lines : List RespLine, lines.countP isInclLine ≤ 1 →
      ((GPTNewsFilter.parse_integrated_response lines).includeFlag = true ↔
        RespLine.includeLine true ∈ lines)) ∧
    (∀ (item : NewsItem) (lines : List RespLine), resp item = some lines →
      ((GPTNewsFilter.judgeItem resp threshold item).isSome ↔
        (threshold ≤ (GPTNewsFilter.parse_integrated_response lines).total_score ∧
          (GPTNewsFilter.parse_integrated_response lines).includeFlag = true))) := by
  refine ⟨?_, ?_, ?_⟩
  · intro lines
    exact ⟨foldl_print_of_no_valid lines initJudgment,
      foldl_util_of_no_valid lines initJudgment,
      foldl_total_of_no_valid lines initJudgment⟩
  · intro lines hcount
    rw [GPTNewsFilter.parse_integrated_response, foldl_incl_iff lines initJudgment hcount]
    simp [initJudgment]
  · intro item lines hresp
    by_cases hc : threshold ≤ (GPTNewsFilter.parse_integrated_response lines).total_score ∧
        (GPTNewsFilter.parse_integrated_response lines).includeFlag = true
    · simp only [GPTNewsFilter.judgeItem, hresp, hc, and_true, if_pos]
      simp [hc]
    · have hc' : ¬ (threshold ≤ (GPTNewsFilter.parse_integrated_response lines).total_score ∧
          (GPTNewsFilter.parse_integrated_response lines).includeFlag) := by
        simpa using hc
      simp only [GPTNewsFilter.judgeItem, hresp, if_neg hc']
      simp [hc]

/-- C8 witness: a response with a malformed print line, a valid overall
score of `1`, and an affirmative include line keeps the print default `0.0`,
derives the include decision, and is retained at threshold `0`. -/
theorem structured_parse_defaults_and_retention_witness :
    ((GPTNewsFilter.parse_integrated_response
        [RespLine.printLine NumField.malformed, RespLine.totalLine (NumField.valid 1),
         RespLine.includeLine true]).print_score = 0) ∧
    ((GPTNewsFilter.parse_integrated_response
        [RespLine.printLine NumField.malformed, RespLine.totalLine (NumField.valid 1),
         RespLine.includeLine true]).includeFlag = true ↔
      RespLine.includeLine true ∈
        [RespLine.printLine NumField.malformed, RespLine.totalLine (NumField.valid 1),
         RespLine.includeLine true]) ∧
    ((GPTNewsFilter.judgeItem (fun _ => some
        [RespLine.printLine NumField.malformed, RespLine.totalLine (NumField.valid 1),
         RespLine.includeLine true]) 0 emptyItem).isSome ↔
      (0 ≤ (GPTNewsFilter.parse_integrated_response
          [RespLine.printLine NumField.malformed, RespLine.totalLine (NumField.valid 1),
           RespLine.includeLine true]).total_score ∧
        (GPTNewsFilter.parse_integrated_response
          [RespLine.printLine NumField.malformed, RespLine.totalLine (NumField.valid 1),
           RespLine.includeLine true]).includeFlag = true)) := by
  refine ⟨?_, ?_, ?_⟩
  · exact ((structured_parse_defaults_and_retention (fun _ => none) 0).1 _).1
      (by intro q hq; simp at hq)
  · exact (structured_parse_defaults_and_retention (fun _ => none) 0).2.1 _
      (by simp [List.countP_cons, isInclLine])
  · exact (structured_parse_defaults_and_retention (fun _ => some
        [RespLine.printLine NumField.malformed, RespLine.totalLine (NumField.valid 1),
         RespLine.includeLine true]) 0).2.2 emptyItem _ rfl

/-! ## Claim C2 -/

/-- Lexicographic order on character sequences is transitive. -/
theorem charsLt_trans : ∀ (x y z : List Char),
    charsLt x y = true → charsLt y z = true → charsLt x z = true := by
  intro x
  induction x with
  | nil =>
    intro y z hxy hyz
    cases y with
    | nil => simp [charsLt] at hxy
    | cons b bs =>
      cases z with
      | nil => simp [charsLt] at hyz
      | cons c cs => simp [charsLt]
  | cons a as ih =>
    intro y z hxy hyz
    cases y with
    | nil => simp [charsLt] at hxy
    | cons b bs =>
      cases z with
      | nil => simp [charsLt] at hyz
      | cons c cs =>
        simp only [charsLt, Bool.or_eq_true, Bool.and_eq_true, beq_iff_eq,
          decide_eq_true_eq] at hxy hyz ⊢
        rcases hxy with hab | ⟨hab, hrec⟩
        · rcases hyz with hbc | ⟨hbc, _⟩
          · exact Or.inl (lt_trans hab hbc)
          · exact Or.inl (hbc ▸ hab)
        · rcases hyz with hbc | ⟨hbc, hrec2⟩
          · exact Or.inl (hab ▸ hbc)
          · exact Or.inr ⟨hab.trans hbc, ih bs cs hrec hrec2⟩

/-- Lexicographic order on character sequences is asymmetric. -/
theorem charsLt_asymm : ∀ (x y : List Char),
    charsLt x y = true → charsLt y x = true → False := by
  intro x
  induction x with
  | nil =>
    intro y hxy hyx
    cases y with
    | nil => simp [charsLt] at hxy
    | cons b bs => simp [charsLt] at hyx
  | cons a as ih =>
    intro y hxy hyx
    cases y with
    | nil => simp [charsLt] at hxy
    | cons b bs =>
      simp only [charsLt, Bool.or_eq_true, Bool.and_eq_true, beq_iff_eq,
        decide_eq_true_eq] at hxy hyx
      rcases hxy with hab | ⟨hab, hr1⟩
      · rcases hyx with hba | ⟨hba, _⟩
        · exact lt_asymm hab hba
        · exact absurd (hba ▸ hab) (lt_irrefl b)
      · rcases hyx with hba | ⟨hba, hr2⟩
        · exact absurd (hab ▸ hba) (lt_irrefl b)
        · exact ih bs hr1 hr2

/-- Lexicographic comparison is total: two sequences are ordered or equal. -/
theorem charsLt_trichotomy : ∀ (x y : List Char),
    charsLt x y = true ∨ x = y ∨ charsLt y x = true := by
  intro x
  induction x with
  | nil =>
    intro y
    cases y with
    | nil => exact Or.inr (Or.inl rfl)
    | cons b bs => exact Or.inl (by simp [charsLt])
  | cons a as ih =>
    intro y
    cases y with
    | nil => exact Or.inr (Or.inr (by simp [charsLt]))
    | cons b bs =>
      rcases lt_trichotomy a b with hab | hab | hab
      · exact Or.inl (by simp [charsLt, hab])
      · rcases ih bs with h | h | h
        · exact Or.inl (by simp [charsLt, hab, h])
        · exact Or.inr (Or.inl (by rw [hab, h]))
        · exact Or.inr (Or.inr (by simp [charsLt, hab.symm, h]))
      · exact Or.inr (Or.inr (by simp [charsLt, hab]))

/-- The descending-by-`pubDate`-string comparison used by the publication
sort with `reverse=True`. -/
def pubDescLe (a b : NewsItem) : Bool := charsLe b.pubDate.data a.pubDate.data

/-- The descending comparison is transitive. -/
theorem pubDescLe_trans : ∀ (a b c : NewsItem),
    pubDescLe a b → pubDescLe b c → pubDescLe a c := by
  intro a b c hab hbc
  simp only [pubDescLe, charsLe, Bool.not_eq_true', Bool.not_eq_true] at hab hbc ⊢
  by_contra h
  have hac : charsLt a.pubDate.data c.pubDate.data = true := by
    cases hx : charsLt a.pubDate.data c.pubDate.data
    · exact absurd hx h
    · rfl
  rcases charsLt_trichotomy c.pubDate.data b.pubDate.data with h1 | h1 | h1
  · exact absurd (charsLt_trans _ _ _ hac h1) (by simp [hab])
  · rw [h1] at hac
    exact absurd hac (by simp [hab])
  · exact absurd h1 (by simp [hbc])

/-- The descending comparison is total. -/
theorem pubDescLe_total : ∀ (a b : NewsItem), pubDescLe a b || pubDescLe b a := by
  intro a b
  simp only [pubDescLe, charsLe, Bool.or_eq_true, Bool.not_eq_true']
  by_contra h
  push_neg at h
  have h1 : charsLt a.pubDate.data b.pubDate.data = true := by
    cases hx : charsLt a.pubDate.data b.pubDate.data
    · exact absurd hx h.1
    · rfl
  have h2 : charsLt b.pubDate.data a.pubDate.data = true := by
    cases hx : charsLt b.pubDate.data a.pubDate.data
    · exact absurd hx h.2
    · rfl
  exact charsLt_asymm _ _ h1 h2

/-- Lexicographic comparison is irreflexive. -/
theorem charsLt_irrefl : ∀ (x : List Char), charsLt x x = false := by
  intro x
  induction x with
  | nil => rfl
  | cons a as ih => simp [charsLt, ih]

/-- Specialization of the sort at `reverse=True`: its comparison is the
descending `pubDate` order. -/
theorem sort_by_pubdate_true (l : List NewsItem) :
    sort_by_pubdate l true =
      (l.filter (fun it => it.pubDate ≠ "")).mergeSort pubDescLe ++
        l.filter (fun it => ¬ it.pubDate ≠ "") := rfl

/-- The order the claim asserts between two adjacent output items: when both
timestamps parse, the later (or equal) instant comes first. -/
def pairOkParsed (a b : NewsItem) : Bool :=
  match parse_pubdate a.pubDate, parse_pubdate b.pubDate with
  | some ta, some tb => decide (tb ≤ ta)
  | _, _ => true

/-- The claim of C2 at one input: the sorted output is non-increasing in
parsed publication time among parseable items, and no item with an
unparseable timestamp precedes a parseable one. -/
def pubdateSortClaim (l : List NewsItem) : Prop :=
  ((sort_by_pubdate l true).Pairwise fun a b => pairOkParsed a b = true) ∧
  ((sort_by_pubdate l true).Pairwise fun a b =>
    (parse_pubdate a.pubDate).isNone = true → (parse_pubdate b.pubDate).isNone = true)

/-- Item with a parseable timestamp denoting the latest instant of the three. -/
def ceItemA : NewsItem := { emptyItem with title := "A", pubDate := "Tue, 07 Oct 2025 10:00:00 +0900" }

/-- Item with a parseable timestamp denoting an earlier instant. -/
def ceItemB : NewsItem := { emptyItem with title := "B", pubDate := "Wed, 01 Jan 2020 00:00:00 +0900" }

/-- Item with a non-empty but unparseable timestamp. -/
def ceItemC : NewsItem := { emptyItem with title := "C", pubDate := "zzz" }

/-- C2 counterexample: the sort compares raw `pubDate` strings, so on this
input (already string-descending, hence returned unchanged) the unparseable
`"zzz"` item comes first and the two parseable items appear in increasing
parsed-time order — the ordering clauses of the claim fail. -/
theorem sort_by_pubdate_not_parsed_time : ¬ pubdateSortClaim [ceItemC, ceItemB, ceItemA] := by
  have hfil : [ceItemC, ceItemB, ceItemA].filter (fun it => it.pubDate ≠ "") =
      [ceItemC, ceItemB, ceItemA] := by decide
  have hfil2 : [ceItemC, ceItemB, ceItemA].filter (fun it => ¬ it.pubDate ≠ "") = [] := by decide
  have hsorted : ([ceItemC, ceItemB, ceItemA] : List NewsItem).Pairwise
      (fun a b => pubDescLe a b) := by decide
  have hout : sort_by_pubdate [ceItemC, ceItemB, ceItemA] true = [ceItemC, ceItemB, ceItemA] := by
    rw [sort_by_pubdate_true, hfil, hfil2, List.mergeSort_of_sorted hsorted, List.append_nil]
  intro hclaim
  obtain ⟨h1, _⟩ := hclaim
  rw [hout] at h1
  have hBA : pairOkParsed ceItemB ceItemA = true :=
    (List.pairwise_cons.mp (List.pairwise_cons.mp h1).2).1 ceItemA (List.mem_singleton.mpr rfl)
  revert hBA
  decide

/-- C2 (amended): the publication sort is a permutation of its input; it is
non-increasing in the raw `pubDate` *string* (in particular no item with an
empty `pubDate` ever precedes one with a non-empty `pubDate`); it is stable
(a pair with equal `pubDate` keeps its relative order); and the items with
empty `pubDate` — emptiness, not parse failure, is the criterion — form the
tail in their original relative order.  Ordering by parsed instant is not
guaranteed. -/
theorem sort_by_pubdate_stable_string_desc (l : List NewsItem) :
    (List.Perm (sort_by_pubdate l true) l) ∧
    ((sort_by_pubdate l true).Pairwise fun a b =>
      b.pubDate = "" ∨ charsLe b.pubDate.data a.pubDate.data = true) ∧
    (∀ a b : NewsItem, a.pubDate = b.pubDate →
      List.Sublist [a, b] l → List.Sublist [a, b] (sort_by_pubdate l true)) ∧
    ((sort_by_pubdate l true).filter (fun it => it.pubDate == "") =
      l.filter (fun it => it.pubDate == "")) := by
  refine ⟨?_, ?_, ?_, ?_⟩
  · rw [sort_by_pubdate_true]
    have hperm := List.mergeSort_perm (l.filter (fun it => it.pubDate ≠ "")) pubDescLe
    have happ := List.Perm.append hperm
      (List.Perm.refl (l.filter (fun it => ¬ it.pubDate ≠ "")))
    refine happ.trans ?_
    have hsplit := List.filter_append_perm (fun it => decide (it.pubDate ≠ "")) l
    refine List.Perm.trans ?_ hsplit
    apply List.Perm.append_left
    apply List.Perm.of_eq
    apply List.filter_congr
    intro x _
    simp
  · rw [sort_by_pubdate_true]
    apply List.pairwise_append.mpr
    refine ⟨?_, ?_, ?_⟩
    · have hs := List.sorted_mergeSort pubDescLe_trans pubDescLe_total
        (l.filter (fun it => it.pubDate ≠ ""))
      exact hs.imp (fun h => Or.inr h)
    · apply List.pairwise_of_forall_mem_list
      intro a _ b hb
      have hbe := (List.mem_filter.mp hb).2
      exact Or.inl (by simpa using hbe)
    · intro a _ b hb
      have hbe := (List.mem_filter.mp hb).2
      exact Or.inl (by simpa using hbe)
  · intro a b heq hsub
    rw [sort_by_pubdate_true]
    by_cases hae : a.pubDate = ""
    · have hbe : b.pubDate = "" := heq ▸ hae
      apply List.sublist_append_of_sublist_right
      have hfab : ([a, b].filter (fun it => ¬ it.pubDate ≠ "")) = [a, b] := by
        simp [List.filter_cons, hae, hbe]
      have := hsub.filter (fun it => decide (¬ it.pubDate ≠ ""))
      rw [hfab] at this
      exact this
    · have hbe : ¬ b.pubDate = "" := heq ▸ hae
      apply List.sublist_append_of_sublist_left
      have hfab : ([a, b].filter (fun it => it.pubDate ≠ "")) = [a, b] := by
        simp [List.filter_cons, hae, hbe]
      have hsubf := hsub.filter (fun it => decide (it.pubDate ≠ ""))
      rw [hfab] at hsubf
      apply List.pair_sublist_mergeSort pubDescLe_trans pubDescLe_total
      · simp only [pubDescLe, charsLe, heq]
        rw [charsLt_irrefl]
        rfl
      · exact hsubf
  · rw [sort_by_pubdate_true, List.filter_append]
    have h1 : ((l.filter (fun it => it.pubDate ≠ "")).mergeSort pubDescLe).filter
        (fun it => it.pubDate == "") = [] := by
      rw [List.filter_eq_nil_iff]
      intro a ha
      have := (List.mem_filter.mp (List.mem_mergeSort.mp ha)).2
      simpa using this
    rw [h1, List.nil_append, List.filter_filter]
    apply List.filter_congr
    intro x _
    by_cases hx : x.pubDate = "" <;> simp [hx]

/-- C2 witness: a concrete equal-timestamp pair keeps its relative order
through the sort (the stability clause applied at a two-item list). -/
theorem sort_by_pubdate_stable_string_desc_witness :
    ceItemA.pubDate = ceItemA.pubDate ∧
    List.Sublist [ceItemA, { ceItemA with title := "A2" }]
      (sort_by_pubdate [ceItemA, { ceItemA with title := "A2" }] true) :=
  ⟨rfl, (sort_by_pubdate_stable_string_desc [ceItemA, { ceItemA with title := "A2" }]).2.2.1
    ceItemA { ceItemA with title := "A2" } rfl (List.Sublist.refl _)⟩

/-! ## Claim C1 -/

/-- A `find?` over a list is determined by the predicate's values on the
list's members. -/
theorem find?_congr_mem {α : Type} (l : List α) (p q : α → Bool)
    (h : ∀ x ∈ l, p x = q x) : l.find? p = l.find? q := by
  induction l with
  | nil => rfl
  | cons x xs ih =>
    have hx := h x (List.mem_cons_self _ _)
    simp only [List.find?_cons, hx]
    cases hq : q x with
    | true => simp [hq]
    | false =>
      simp only [hq]
      exact ih (fun y hy => h y (List.mem_cons_of_mem _ hy))

/-- Every non-empty list has a member attaining the maximal combined score. -/
theorem exists_combined_max : ∀ (g : List NewsItem), g ≠ [] →
    ∃ z ∈ g, ∀ y ∈ g, combined_score y ≤ combined_score z := by
  intro g
  induction g with
  | nil => intro h; exact absurd rfl h
  | cons x xs ih =>
    intro _
    by_cases hxs : xs = []
    · subst hxs
      refine ⟨x, List.mem_cons_self _ _, ?_⟩
      intro y hy
      rw [List.mem_singleton] at hy
      exact hy ▸ le_refl _
    · obtain ⟨z, hz, hmax⟩ := ih hxs
      rcases le_total (combined_score z) (combined_score x) with h | h
      · refine ⟨x, List.mem_cons_self _ _, ?_⟩
        intro y hy
        rcases List.mem_cons.mp hy with hy | hy
        · exact hy ▸ le_refl _
        · exact (hmax y hy).trans h
      · refine ⟨z, List.mem_cons_of_mem _ hz, ?_⟩
        intro y hy
        rcases List.mem_cons.mp hy with hy | hy
        · exact hy ▸ h
        · exact hmax y hy

/-- One step of the champion loop in `_select_best_from_group`. -/
def bestStep (acc : NewsItem × ℚ) (it : NewsItem) : NewsItem × ℚ :=
  if acc.2 < combined_score it then (it, combined_score it) else acc

/-- The champion loop yields the first element whose combined score exceeds
the running best and dominates the whole remaining list, defaulting to the
initial champion. -/
theorem foldl_bestStep_eq : ∀ (l : List NewsItem) (b : NewsItem) (s : ℚ),
    (l.foldl bestStep (b, s)).1 =
      (l.find? (fun z => decide (s < combined_score z) &&
        l.all (fun y => decide (combined_score y ≤ combined_score z)))).getD b := by
  intro l
  induction l with
  | nil => intro b s; rfl
  | cons x xs ih =>
    intro b s
    rw [List.foldl_cons]
    by_cases hx : s < combined_score x
    · rw [show bestStep (b, s) x = (x, combined_score x) from if_pos hx]
      rw [ih x (combined_score x)]
      by_cases hmax : ∀ y ∈ xs, combined_score y ≤ combined_score x
      · have hpx : (decide (s < combined_score x) &&
            (x :: xs).all (fun y => decide (combined_score y ≤ combined_score x))) = true := by
          simp only [Bool.and_eq_true, decide_eq_true_eq, List.all_eq_true]
          exact ⟨hx, fun y hy => by
            rcases List.mem_cons.mp hy with hy | hy
            · exact hy ▸ le_refl _
            · exact hmax y hy⟩
        have hnone : xs.find? (fun z => decide (combined_score x < combined_score z) &&
            xs.all (fun y => decide (combined_score y ≤ combined_score z))) = none := by
          rw [List.find?_eq_none]
          intro z hz
          simp only [Bool.and_eq_true, decide_eq_true_eq, not_and]
          intro hlt _
          exact absurd (hmax z hz) (not_le.mpr hlt)
        simp only [List.find?_cons, hpx]
        rw [hnone]
        rfl
      · push_neg at hmax
        obtain ⟨y₀, hy₀, hy₀lt⟩ := hmax
        have hxs_ne : xs ≠ [] := List.ne_nil_of_mem hy₀
        have hpx : (decide (s < combined_score x) &&
            (x :: xs).all (fun y => decide (combined_score y ≤ combined_score x))) = false := by
          simp only [Bool.and_eq_false_iff, List.all_eq_false]
          exact Or.inr ⟨y₀, List.mem_cons_of_mem _ hy₀, by simp [not_le.mpr hy₀lt]⟩
        simp only [List.find?_cons, hpx]
        have hcong : xs.find? (fun z => decide (s < combined_score z) &&
              (x :: xs).all (fun y => decide (combined_score y ≤ combined_score z))) =
            xs.find? (fun z => decide (combined_score x < combined_score z) &&
              xs.all (fun y => decide (combined_score y ≤ combined_score z))) := by
          apply find?_congr_mem
          intro z hz
          cases hall : xs.all (fun y => decide (combined_score y ≤ combined_score z)) with
          | false =>
            have h1 : (x :: xs).all (fun y => decide (combined_score y ≤ combined_score z)) = false := by
              rw [List.all_cons, hall, Bool.and_false]
            simp [h1, hall]
          | true =>
            have hz_ge : combined_score y₀ ≤ combined_score z := by
              have := List.all_eq_true.mp hall y₀ hy₀
              exact decide_eq_true_eq.mp this
            have hxz : combined_score x < combined_score z := lt_of_lt_of_le hy₀lt hz_ge
            have hsz : s < combined_score z := lt_trans hx hxz
            have h1 : (x :: xs).all (fun y => decide (combined_score y ≤ combined_score z)) = true := by
              rw [List.all_cons, hall, Bool.and_true]
              exact decide_eq_true hxz.le
            simp [h1, hall, hsz, hxz]
        rw [hcong]
        obtain ⟨z, hzmem, hzmax⟩ := exists_combined_max xs hxs_ne
        have hzfind : (xs.find? (fun z => decide (combined_score x < combined_score z) &&
            xs.all (fun y => decide (combined_score y ≤ combined_score z)))).isSome := by
          rw [List.find?_isSome]
          refine ⟨z, hzmem, ?_⟩
          simp only [Bool.and_eq_true, decide_eq_true_eq, List.all_eq_true]
          exact ⟨lt_of_lt_of_le hy₀lt (hzmax y₀ hy₀),
            fun y hy => hzmax y hy⟩
        obtain ⟨r, hr⟩ := Option.isSome_iff_exists.mp hzfind
        rw [hr]
        rfl
    · rw [show bestStep (b, s) x = (b, s) from if_neg hx]
      rw [ih b s]
      have hpx : (decide (s < combined_score x) &&
          (x :: xs).all (fun y => decide (combined_score y ≤ combined_score x))) = false := by
        simp only [Bool.and_eq_false_iff]
        exact Or.inl (by simp [hx])
      simp only [List.find?_cons, hpx]
      congr 1
      apply find?_congr_mem
      intro z hz
      cases hall : xs.all (fun y => decide (combined_score y ≤ combined_score z)) with
      | false =>
        have h1 : (x :: xs).all (fun y => decide (combined_score y ≤ combined_score z)) = false := by
          rw [List.all_cons, hall, Bool.and_false]
        simp [h1, hall]
      | true =>
        by_cases hsz : s < combined_score z
        · have hxz : combined_score x ≤ combined_score z := le_trans (not_lt.mp hx) hsz.le
          have h1 : (x :: xs).all (fun y => decide (combined_score y ≤ combined_score z)) = true := by
            rw [List.all_cons, hall, Bool.and_true]
            exact decide_eq_true hxz
          simp [h1, hall]
        · simp [hsz]

/-- The spec-side selection rule of the claim: the first group member whose
combined score dominates the whole group (the maximizer, ties resolved to
the first-seen member). -/
def firstMax (g : List NewsItem) : Option NewsItem :=
  g.find? (fun it => g.all (fun y => decide (combined_score y ≤ combined_score it)))

/-- On a non-empty group whose combined scores all exceed the loop's initial
best of `-1`, the code's champion loop selects exactly the claim's first
maximizer. -/
theorem select_best_eq_firstMax (g : List NewsItem) (hne : g ≠ [])
    (hpos : ∀ x ∈ g, -1 < combined_score x) :
    ∃ r, firstMax g = some r ∧ select_best g = r := by
  obtain ⟨g0, rest, rfl⟩ := List.exists_cons_of_ne_nil hne
  have hfold := foldl_bestStep_eq (g0 :: rest) g0 (-1)
  have hcong : (g0 :: rest).find? (fun z => decide ((-1 : ℚ) < combined_score z) &&
      (g0 :: rest).all (fun y => decide (combined_score y ≤ combined_score z))) =
      firstMax (g0 :: rest) := by
    apply find?_congr_mem
    intro z hz
    simp [hpos z hz]
  obtain ⟨z, hz, hmax⟩ := exists_combined_max (g0 :: rest) (by simp)
  have hsome : (firstMax (g0 :: rest)).isSome := by
    rw [firstMax]
    rw [List.find?_isSome]
    refine ⟨z, hz, ?_⟩
    simp only [List.all_eq_true]
    exact fun y hy => decide_eq_true (hmax y hy)
  obtain ⟨r, hr⟩ := Option.isSome_iff_exists.mp hsome
  refine ⟨r, hr, ?_⟩
  have hsel : select_best (g0 :: rest) = ((g0 :: rest).foldl bestStep (g0, (-1 : ℚ))).1 := rfl
  rw [hsel, hfold, hcong, hr]
  rfl

/-- Membership in the insertion-ordered distinct keys. -/
theorem mem_distinctKeysAux : ∀ (ks acc : List (List Char)) (k : List Char),
    (k ∈ distinctKeysAux ks acc ↔ k ∈ ks ∨ k ∈ acc) := by
  intro ks
  induction ks with
  | nil => intro acc k; simp [distinctKeysAux]
  | cons k' ks ih =>
    intro acc k
    by_cases h : k' ∈ acc
    · rw [distinctKeysAux, if_pos h, ih]
      constructor
      · intro hh
        rcases hh with hh | hh
        · exact Or.inl (List.mem_cons_of_mem _ hh)
        · exact Or.inr hh
      · intro hh
        rcases hh with hh | hh
        · rcases List.mem_cons.mp hh with hh | hh
          · exact Or.inr (hh ▸ h)
          · exact Or.inl hh
        · exact Or.inr hh
    · rw [distinctKeysAux, if_neg h, ih]
      constructor
      · intro hh
        rcases hh with hh | hh
        · exact Or.inl (List.mem_cons_of_mem _ hh)
        · rcases List.mem_cons.mp hh with hh | hh
          · exact Or.inl (hh ▸ List.mem_cons_self _ _)
          · exact Or.inr hh
      · intro hh
        rcases hh with hh | hh
        · rcases List.mem_cons.mp hh with hh | hh
          · exact Or.inr (hh ▸ List.mem_cons_self _ _)
          · exact Or.inl hh
        · exact Or.inr (List.mem_cons_of_mem _ hh)

/-- The insertion-ordered distinct keys contain no duplicates. -/
theorem nodup_distinctKeysAux : ∀ (ks acc : List (List Char)),
    acc.Nodup → (distinctKeysAux ks acc).Nodup := by
  intro ks
  induction ks with
  | nil =>
    intro acc h
    rw [distinctKeysAux]
    exact List.nodup_reverse.mpr h
  | cons k' ks ih =>
    intro acc h
    by_cases hm : k' ∈ acc
    · rw [distinctKeysAux, if_pos hm]
      exact ih acc h
    · rw [distinctKeysAux, if_neg hm]
      exact ih _ (List.nodup_cons.mpr ⟨hm, h⟩)

/-- Filtering a keyed map over pairwise-distinct keys picks out exactly the
entry of the requested key. -/
theorem filter_map_keys (pick : List Char → NewsItem) :
    ∀ (ks : List (List Char)) (k : List Char), ks.Nodup →
    (∀ k' ∈ ks, titleKey (pick k') = k') →
    (ks.map pick).filter (fun it => titleKey it == k) =
      if k ∈ ks then [pick k] else [] := by
  intro ks
  induction ks with
  | nil => intro k _ _; simp
  | cons k' ks ih =>
    intro k hnd hkey
    have hk' : titleKey (pick k') = k' := hkey k' (List.mem_cons_self _ _)
    rw [List.map_cons, List.filter_cons]
    by_cases heq : k' = k
    · subst heq
      have hb : (titleKey (pick k') == k') = true := by simp [hk']
      rw [hb, if_pos rfl]
      have hrest : (ks.map pick).filter (fun it => titleKey it == k') = [] := by
        rw [List.filter_eq_nil_iff]
        intro a ha
        obtain ⟨k'', hk'', hpk⟩ := List.mem_map.mp ha
        have hkk : titleKey a = k'' := hpk ▸ hkey k'' (List.mem_cons_of_mem _ hk'')
        have hne : k'' ≠ k' := fun hc => (List.nodup_cons.mp hnd).1 (hc ▸ hk'')
        simp [hkk, hne]
      rw [hrest, if_pos (List.mem_cons_self _ _)]
    · have hb : (titleKey (pick k') == k) = false := by simp [hk', heq]
      rw [hb]
      simp only [Bool.false_eq_true, if_false]
      rw [ih k (List.nodup_cons.mp hnd).2 (fun k'' h => hkey k'' (List.mem_cons_of_mem _ h))]
      by_cases hmem : k ∈ ks
      · rw [if_pos hmem, if_pos (List.mem_cons_of_mem _ hmem)]
      · rw [if_neg hmem, if_neg (by
          intro hc
          rcases List.mem_cons.mp hc with hc | hc
          · exact heq hc.symm
          · exact hmem hc)]

/-- Scores of a judged item: the judgment fields the weighted score reads
are non-negative (every judgment the structured parser produces has its
scores in `[0.0, 1.0]`). -/
def judgedScoresOK (it : NewsItem) : Prop :=
  match it.judgment_result with
  | some j => 0 ≤ j.print_score ∧ 0 ≤ j.total_score
  | none => True

/-- The priority table only awards non-negative ranks. -/
theorem source_priority_get_nonneg (source_name : String) :
    0 ≤ source_priority_get source_name := by
  rw [source_priority_get]
  split_ifs <;> norm_num

/-- A judged item's combined score is non-negative, in particular above the
loop's initial best of `-1`. -/
theorem combined_nonneg (it : NewsItem) (h : judgedScoresOK it) :
    0 ≤ combined_score it := by
  have hsp : (0 : ℚ) ≤ source_priority_get it.source_name / 10 :=
    div_nonneg (source_priority_get_nonneg _) (by norm_num)
  rw [combined_score]
  cases hj : it.judgment_result with
  | none =>
    simp only [hj]
    have := mul_nonneg hsp (by norm_num : (0 : ℚ) ≤ 0.1)
    linarith
  | some j =>
    rw [judgedScoresOK, hj] at h
    simp only [hj]
    have h1 := mul_nonneg h.1 (by norm_num : (0 : ℚ) ≤ 0.6)
    have h2 := mul_nonneg h.2 (by norm_num : (0 : ℚ) ≤ 0.3)
    have h3 := mul_nonneg hsp (by norm_num : (0 : ℚ) ≤ 0.1)
    linarith

/-- The group of a normalized-title key: the items surviving the blank-title
guard whose key matches. -/
def groupFor (news_items : List NewsItem) (k : List Char) : List NewsItem :=
  (news_items.filter validTitle).filter (fun it => titleKey it == k)

/-- The normalized-title keys of the dedupe grouping, in dict insertion
order. -/
def dedupeKeys (news_items : List NewsItem) : List (List Char) :=
  distinctKeys ((news_items.filter validTitle).map titleKey)

/-- The representative the dedupe emits for one key. -/
def dedupePick (news_items : List NewsItem) (k : List Char) : NewsItem :=
  if (groupFor news_items k).length == 1 then (groupFor news_items k).headD emptyItem
  else select_best (groupFor news_items k)

/-- The dedupe is the keyed map of representatives. -/
theorem dedupe_eq_map_pick (news_items : List NewsItem) :
    dedupe_with_print_priority news_items =
      (dedupeKeys news_items).map (dedupePick news_items) := rfl

/-- A key is grouped iff some valid-titled item carries it. -/
theorem mem_dedupeKeys_iff (news_items : List NewsItem) (k : List Char) :
    k ∈ dedupeKeys news_items ↔ groupFor news_items k ≠ [] := by
  rw [dedupeKeys, distinctKeys, mem_distinctKeysAux]
  simp only [List.not_mem_nil, or_false, List.mem_map]
  constructor
  · intro ⟨it, hit, hk⟩
    intro hc
    have : it ∈ groupFor news_items k := by
      rw [groupFor, List.mem_filter]
      exact ⟨hit, by simp [hk]⟩
    rw [hc] at this
    exact List.not_mem_nil it this
  · intro hne
    obtain ⟨it, hit⟩ := List.exists_mem_of_ne_nil _ hne
    rw [groupFor, List.mem_filter] at hit
    exact ⟨it, hit.1, by simpa using hit.2⟩

/-- Claim C1 counterexample: under the claim's grouping of the judged list by
normalized-title key, the sole (blank-titled) item forms a group of size one,
which the claim says passes through unchanged; the code drops it. -/
theorem dedupe_print_priority_blank_title_dropped :
    ([emptyItem].filter (fun it => titleKey it == titleKey emptyItem)).length = 1 ∧
    dedupe_with_print_priority [emptyItem] = [] := by
  exact ⟨rfl, rfl⟩

/-- C1 (amended): over judged items (judgment scores non-negative, as the
structured parser guarantees), the near-duplicate collapse drops the items
whose raw title is blank, and for every normalized-title key whose group
(among the non-blank-titled items) is non-empty, the output contains exactly
one item of that key: the group member maximizing
`0.6 * printScore + 0.3 * totalScore + 0.1 * (sourceTrustRank / 10)` (an
unranked publisher contributing `0` on the source term), ties resolved to the
first-seen member — in particular a group of size one passes through
unchanged. -/
theorem dedupe_print_priority_selects_first_max (news_items : List NewsItem)
    (H : ∀ it ∈ news_items, judgedScoresOK it) :
    (∀ it ∈ news_items, validTitle it = false →
        it ∉ dedupe_with_print_priority news_items) ∧
    (∀ k : List Char, groupFor news_items k ≠ [] →
        (dedupe_with_print_priority news_items).filter (fun it => titleKey it == k) =
          (firstMax (groupFor news_items k)).toList) ∧
    (∀ k : List Char, (groupFor news_items k).length = 1 →
        (dedupe_with_print_priority news_items).filter (fun it => titleKey it == k) =
          groupFor news_items k) := by
  have hpos : ∀ k, ∀ x ∈ groupFor news_items k, (-1 : ℚ) < combined_score x := by
    intro k x hx
    rw [groupFor, List.mem_filter, List.mem_filter] at hx
    have := combined_nonneg x (H x hx.1.1)
    linarith
  have hpick : ∀ k, groupFor news_items k ≠ [] →
      dedupePick news_items k ∈ groupFor news_items k ∧
        firstMax (groupFor news_items k) = some (dedupePick news_items k) := by
    intro k hne
    rw [dedupePick]
    cases hlen : ((groupFor news_items k).length == 1) with
    | true =>
      obtain ⟨x, hx⟩ := List.length_eq_one.mp (by simpa using hlen)
      rw [if_pos rfl, hx]
      refine ⟨List.mem_singleton.mpr rfl, ?_⟩
      rw [firstMax]
      rw [List.find?_cons_of_pos]
      all_goals simp
    | false =>
      simp only [Bool.false_eq_true, if_false]
      obtain ⟨r, hfm, hsel⟩ := select_best_eq_firstMax (groupFor news_items k) hne (hpos k)
      rw [hsel, hfm]
      refine ⟨?_, rfl⟩
      rw [firstMax] at hfm
      exact List.mem_of_find?_eq_some hfm
  have hkeypick : ∀ k ∈ dedupeKeys news_items, titleKey (dedupePick news_items k) = k := by
    intro k hk
    have hne := (mem_dedupeKeys_iff news_items k).mp hk
    have hmem := (hpick k hne).1
    rw [groupFor, List.mem_filter] at hmem
    simpa using hmem.2
  have hB : ∀ k : List Char, groupFor news_items k ≠ [] →
      (dedupe_with_print_priority news_items).filter (fun it => titleKey it == k) =
        (firstMax (groupFor news_items k)).toList := by
    intro k hne
    rw [dedupe_eq_map_pick]
    rw [filter_map_keys (dedupePick news_items) (dedupeKeys news_items) k
      (nodup_distinctKeysAux _ [] List.nodup_nil) hkeypick]
    rw [if_pos ((mem_dedupeKeys_iff news_items k).mpr hne)]
    rw [(hpick k hne).2]
    rfl
  refine ⟨?_, hB, ?_⟩
  · intro it hit hblank hmem
    rw [dedupe_eq_map_pick] at hmem
    obtain ⟨k, hk, hpk⟩ := List.mem_map.mp hmem
    have hne := (mem_dedupeKeys_iff news_items k).mp hk
    have hmemg := (hpick k hne).1
    rw [groupFor, List.mem_filter, List.mem_filter] at hmemg
    have : validTitle it = true := hpk ▸ hmemg.1.2
    rw [hblank] at this
    exact Bool.false_ne_true this
  · intro k hlen
    have hne : groupFor news_items k ≠ [] := by
      intro hc
      rw [hc] at hlen
      simp at hlen
    rw [hB k hne]
    obtain ⟨x, hx⟩ := List.length_eq_one.mp hlen
    rw [hx, firstMax]
    rw [List.find?_cons_of_pos]
    all_goals simp

/-- Judged item of the spec's worked example with the higher weighted score. -/
def c1w1 : NewsItem :=
  { emptyItem with
    title := "삼성전자, AI 반도체 시장 진출 선언"
    source_name := "한국경제"
    judgment_result := some (Judgment.mk (9/10) 0 (8/10) true "") }

/-- Judged item of the spec's worked example with the lower weighted score,
whose title differs only in punctuation. -/
def c1w2 : NewsItem :=
  { emptyItem with
    title := "삼성전자 AI 반도체 시장 진출 선언"
    source_name := "조선일보"
    judgment_result := some (Judgment.mk (5/10) 0 (6/10) true "") }

/-- C1 witness: the two punctuation-variant titles of the spec's example form
one group, and the collapse keeps exactly its first score-maximizer. -/
theorem dedupe_print_priority_selects_first_max_witness :
    (∀ it ∈ [c1w1, c1w2], judgedScoresOK it) ∧
    groupFor [c1w1, c1w2] (titleKey c1w1) ≠ [] ∧
    (dedupe_with_print_priority [c1w1, c1w2]).filter
        (fun it => titleKey it == titleKey c1w1) =
      (firstMax (groupFor [c1w1, c1w2] (titleKey c1w1))).toList := by
  have hH : ∀ it ∈ [c1w1, c1w2], judgedScoresOK it := by
    intro it hit
    rcases List.mem_cons.mp hit with h | h
    · subst h
      rw [judgedScoresOK]
      simp [c1w1]
      norm_num
    · rw [List.mem_singleton] at h
      subst h
      rw [judgedScoresOK]
      simp [c1w2]
      norm_num
  have hne : groupFor [c1w1, c1w2] (titleKey c1w1) ≠ [] := by decide
  exact ⟨hH, hne,
    (dedupe_print_priority_selects_first_max [c1w1, c1w2] hH).2.1 (titleKey c1w1) hne⟩
